import Mathlib

/-!
Verification development for the `ecs_composex` resource-synthesis engine.

The Lean definitions below are shallow embeddings of the Python functions of the
repository (file and line references are given on each definition).  Python
dictionaries with a fixed key set are embedded as structures, absent keys as
`Option` fields, exceptions as `Except`, and `compose_x_common.keyisset`
(key present and value truthy) as explicit truthiness tests.  Python's stable
`sorted` is embedded as `List.insertionSort`, which is also a stable sort and
therefore extensionally equal to it on every input.
-/

/- ===================== Port and network merger =====================
   Source: src/ecs_composex/ecs/service_networking/__init__.py -/

/-- A normalized service port definition: the `target / published / protocol`
mapping used throughout the port handling code.  `published` is optional as a
compose port mapping may omit it. -/
structure PortDef where
  target : Nat
  published : Option Nat
  protocol : String
  deriving DecidableEq, Repr

/-- Modelled from the spec: `set_service_ports` (imported from
`ecs_composex.ingress_settings`, a module of this repository that is not under
`src/`) normalizes a port list into the `target / published / protocol` mapping
form described in the spec data model (§3, PortSpec).  On entries that are
already in normalized mapping form it keeps every entry unchanged, in order. -/
def set_service_ports (ports : List PortDef) : List PortDef := ports

/-- One iteration of the loop body of `ServiceNetworking.merge_services_ports`
(service_networking/__init__.py lines 216-225): `self.ports` is rebuilt from the
accumulated ports (`acc`, giving `f_source_ports`) and the incoming service's
port set (`port_set`, giving `f_override_ports`).  Note that in the source the
`for s_port in f_source_ports` loop is nested inside `for port in
f_override_ports`, so the kept source ports are appended once per incoming
override port. -/
def merge_ports_step (acc : List PortDef) (port_set : List PortDef) : List PortDef :=
  let f_source_ports := set_service_ports acc
  let f_override_ports := set_service_ports port_set
  let f_overide_ports_targets := f_override_ports.map (fun port => port.target)
  f_override_ports.foldl
    (fun ports port =>
      ports ++ [port] ++
        f_source_ports.filter (fun s_port => !decide (s_port.target ∈ f_overide_ports_targets)))
    []

/-- Embedding of `ServiceNetworking.merge_services_ports` (lines 207-225): fold every
(nonempty) member service port set over the accumulated `self.ports`, which is
`[]` when the object is first initialized and the previous merge result when
the method is re-run on the same object. -/
def merge_services_ports (current_ports : List PortDef) (source_ports : List (List PortDef)) :
    List PortDef :=
  source_ports.foldl merge_ports_step current_ports

/-- A member service contributing ports to a family. -/
structure PortedService where
  name : String
  ports : List PortDef
  deriving DecidableEq, Repr

/-- The `source_ports` list comprehension of `merge_services_ports` (lines
209-215): port lists of `chain(managed_sidecars, ordered_services)`, keeping
only services with a truthy (nonempty) `ports` attribute. -/
def family_source_ports (managed_sidecars ordered_services : List PortedService) :
    List (List PortDef) :=
  ((managed_sidecars ++ ordered_services).map (fun service => service.ports)).filter
    (fun ports => !ports.isEmpty)

/-- The family port set produced at `ServiceNetworking.__init__` time:
`self.ports = []` followed by `self.merge_services_ports()`. -/
def family_merged_ports (managed_sidecars ordered_services : List PortedService) :
    List PortDef :=
  merge_services_ports [] (family_source_ports managed_sidecars ordered_services)

/- ===================== Managed side-car injection =====================
   Source: src/ecs_composex/ecs/ecs_family/__init__.py, add_managed_sidecar -/

/-- The parts of a `ComposeService` that `add_managed_sidecar` inspects: its
name and (optionally present) container definition. -/
structure SidecarService where
  name : String
  container_definition : Option String
  deriving DecidableEq, Repr

/-- The parts of a `ComposeFamily` that `add_managed_sidecar` mutates:
the `managed_sidecars` list and the task definition's `ContainerDefinitions`
(present only when `self.task_definition` is set). -/
structure FamilySidecars where
  managed_sidecars : List SidecarService
  task_containers : List String
  has_task_definition : Bool
  deriving DecidableEq, Repr

/-- Embedding of `ComposeFamily.add_managed_sidecar` (ecs_family/__init__.py lines 387-412).
The `isinstance` type check always passes in this typed embedding.  When the
side-car name is already present in `managed_sidecars` the method logs a debug
notice and returns without mutating anything; otherwise it appends the service
and, when both the task definition and the container definition exist, appends
the container definition to `ContainerDefinitions`.  (`init_update_policies`
and `set_task_compute_parameter` touch no field modelled here.) -/
def add_managed_sidecar (family : FamilySidecars) (service : SidecarService) : FamilySidecars :=
  if !family.managed_sidecars.isEmpty &&
      decide (service.name ∈ family.managed_sidecars.map (fun svc => svc.name)) then
    family
  else
    let family' := { family with managed_sidecars := family.managed_sidecars ++ [service] }
    match service.container_definition with
    | some container =>
      if family'.has_task_definition then
        { family' with task_containers := family'.task_containers ++ [container] }
      else family'
    | none => family'

/- ===================== Step scaling =====================
   Source: src/ecs_composex/ecs/service_scaling/helpers.py -/

/-- A user step definition: the `LowerBound / UpperBound / Count` mapping.
`UpperBound := none` models the key being absent. -/
structure StepDef where
  LowerBound : Int
  UpperBound : Option Int
  Count : Int
  deriving DecidableEq, Repr

/-- Embedding of `compose_x_common.keyisset("UpperBound", step_def)`: the key is present and
its value truthy; a Python `int` is truthy iff it is nonzero, so an
`UpperBound` of `0` behaves exactly like an absent key. -/
def keyisset_upper (step_def : StepDef) : Bool :=
  match step_def.UpperBound with
  | some v => v != 0
  | none => false

/-- The exceptions raised by the step scaling helpers, with the data each
message reports. -/
inductive ScalingError where
  /-- `ValueError` of `validate_steps_definition`: "The LowerBound value must
  strictly lower than the upper bound", reporting the offending step. -/
  | lowerNotBelowUpper (step_def : StepDef)
  /-- `ValueError` of `define_step_adjustment`: "The value for lower bound is
  ..., which is higher than the previous UpperBound ...". -/
  | lowerBelowPreviousUpper (lower : Int) (pre_upper : Int)
  /-- `IndexError` raised by `ordered[-1]` in `generate_scaling_out_steps` when
  the step list is empty. -/
  | indexError
  deriving DecidableEq, Repr

/-- Embedding of `validate_steps_definition` (helpers.py lines 29-53).  The `allowed_keys`
check always passes in this typed embedding.  Each step whose (truthy)
`UpperBound` is not strictly above its `LowerBound` raises; otherwise the step
is appended to `unordered` in input order. -/
def validate_steps_definition : List StepDef → Except ScalingError (List StepDef)
  | [] => .ok []
  | step_def :: steps =>
    if keyisset_upper step_def && decide (step_def.LowerBound ≥ step_def.UpperBound.getD 0) then
      .error (.lowerNotBelowUpper step_def)
    else do
      let unordered ← validate_steps_definition steps
      return step_def :: unordered

/-- Python truthiness of the `pre_upper` variable of `define_step_adjustment`:
it is `0` initially (falsy), `None` (falsy) after a step without a truthy
`UpperBound`, and the previous step's `UpperBound` otherwise. -/
def pre_upper_truthy : Option Int → Bool
  | some v => v != 0
  | none => false

/-- One generated `StepAdjustment`. `MetricIntervalUpperBound := none` models
`Ref(AWS_NO_VALUE)`. -/
structure CfnStep where
  MetricIntervalLowerBound : Int
  MetricIntervalUpperBound : Option Int
  ScalingAdjustment : Int
  deriving DecidableEq, Repr

/-- The `StepAdjustment` built for one step definition by
`define_step_adjustment` (helpers.py lines 77-87). -/
def make_cfn_step (step_def : StepDef) : CfnStep :=
  { MetricIntervalLowerBound := step_def.LowerBound
    MetricIntervalUpperBound := if keyisset_upper step_def then step_def.UpperBound else none
    ScalingAdjustment := step_def.Count }

/-- The value assigned to `pre_upper` after processing one step (helpers.py
lines 88-90). -/
def next_pre_upper (step_def : StepDef) : Option Int :=
  if keyisset_upper step_def then step_def.UpperBound else none

/-- Embedding of `define_step_adjustment` (helpers.py lines 67-90): walks the ordered steps,
raising when a truthy `pre_upper` exceeds the incoming lower bound, otherwise
appending the generated step.  The source accumulates into `cfn_steps`; this
recursion produces the same list in the same order. -/
def define_step_adjustment (pre_upper : Option Int) : List StepDef → Except ScalingError (List CfnStep)
  | [] => .ok []
  | step_def :: ordered =>
    if pre_upper_truthy pre_upper && !decide (step_def.LowerBound ≥ pre_upper.getD 0) then
      .error (.lowerBelowPreviousUpper step_def.LowerBound (pre_upper.getD 0))
    else do
      let tail ← define_step_adjustment (next_pre_upper step_def) ordered
      return make_cfn_step step_def :: tail

/-- Embedding of `rectify_scaling_steps` (helpers.py lines 56-64): if the last generated
step still carries an upper bound (it is not `Ref(AWS_NO_VALUE)`), log a
warning and clear it. -/
def rectify_scaling_steps (cfn_steps : List CfnStep) : List CfnStep :=
  match cfn_steps.getLast? with
  | some last =>
    if last.MetricIntervalUpperBound.isSome then
      cfn_steps.dropLast ++ [{ last with MetricIntervalUpperBound := none }]
    else cfn_steps
  | none => cfn_steps

/-- The ordering key of `sorted(unordered, key=lambda i: i["LowerBound"])`. -/
def step_lower_le (a b : StepDef) : Prop := a.LowerBound ≤ b.LowerBound

instance : DecidableRel step_lower_le := fun a b => Int.decLe a.LowerBound b.LowerBound

/-- Embedding of `generate_scaling_out_steps` (helpers.py lines 93-112).  Returns the
generated step adjustments together with the (possibly raised) scalable target
`MaxCapacity`.  Python's stable `sorted` is embedded as `insertionSort`. -/
def generate_scaling_out_steps (steps : List StepDef) (max_capacity : Int) :
    Except ScalingError (List CfnStep × Int) := do
  let unordered ← validate_steps_definition steps
  let ordered := unordered.insertionSort step_lower_le
  match ordered.getLast? with
  | none => .error .indexError
  | some last =>
    let new_max := if last.Count > max_capacity then last.Count else max_capacity
    let cfn_steps ← define_step_adjustment (some 0) ordered
    return (rectify_scaling_steps cfn_steps, new_max)

/- ===================== Target tracking scaling merge =====================
   Source: src/ecs_composex/ecs/service_scaling/helpers.py lines 210-248 -/

/-- One `TargetScaling` configuration mapping.  A field is `none` when the key
is absent (`keypresent` is `isSome`). -/
structure TargetScalingConfig where
  CpuTarget : Option Int
  MemoryTarget : Option Int
  DisableScaleIn : Option Bool
  TgtTargetsCount : Option Int
  ScaleInCooldown : Option Int
  ScaleOutCooldown : Option Int
  deriving DecidableEq, Repr

/-- Embedding of `handle_defined_target_scaling_props` (helpers.py lines 210-221), called
when a property key is present in both the accumulated and the incoming
configuration.  `define_new_config` iterates over `valid_keys`, a list of plain
strings, so `prop` is a `str` such as `"CpuTarget"`; `prop[0]` and `prop[1]`
are its first two characters, and the tests `prop[1] is int` and
`prop[1] is bool` compare a one-character string with the builtin type objects,
which is always `False`.  Neither branch runs, so the accumulated value is
left unchanged (the `min` / logical-or / warning code is unreachable). -/
def handle_defined_target_scaling_props {α : Type} (current_value _new_value : α) : α :=
  current_value

/-- The per-key effect of the `define_new_config` loop body (helpers.py lines
233-237): key in both configs → `handle_defined_target_scaling_props`; key only
in the incoming config → copy it; key only in the accumulated config → leave. -/
def define_new_prop {α : Type} (current incoming : Option α) : Option α :=
  match current, incoming with
  | some c, some n => some (handle_defined_target_scaling_props c n)
  | none, some n => some n
  | c, none => c

/-- Embedding of `define_new_config` (helpers.py lines 224-237): applies the per-key rule to
each of the six `valid_keys`. -/
def define_new_config (config new_config : TargetScalingConfig) : TargetScalingConfig :=
  { CpuTarget := define_new_prop config.CpuTarget new_config.CpuTarget
    MemoryTarget := define_new_prop config.MemoryTarget new_config.MemoryTarget
    DisableScaleIn := define_new_prop config.DisableScaleIn new_config.DisableScaleIn
    TgtTargetsCount := define_new_prop config.TgtTargetsCount new_config.TgtTargetsCount
    ScaleInCooldown := define_new_prop config.ScaleInCooldown new_config.ScaleInCooldown
    ScaleOutCooldown := define_new_prop config.ScaleOutCooldown new_config.ScaleOutCooldown }

/-- The initial `TargetScaling` entry of `x_scaling` in
`merge_family_services_scaling` (helpers.py lines 285-292). -/
def initial_target_scaling : TargetScalingConfig :=
  { CpuTarget := none
    MemoryTarget := none
    DisableScaleIn := some false
    TgtTargetsCount := none
    ScaleInCooldown := some 300
    ScaleOutCooldown := some 60 }

/-- The `TargetScaling` part of `merge_family_services_scaling` (helpers.py
lines 284-309): every service `TargetScaling` configuration is folded through
`handle_target_scaling`, and since the accumulated entry starts as the truthy
`initial_target_scaling` mapping, `handle_target_scaling` (lines 240-248)
always takes the `define_new_config` branch. -/
def merge_family_target_scaling (configs : List TargetScalingConfig) : TargetScalingConfig :=
  configs.foldl define_new_config initial_target_scaling

/-- The merge rule the spec (§4.4) states for a target-tracking property
defined by both services, used here only to exhibit the divergence of the code
from it: numeric targets combine by minimum, boolean flags by logical or. -/
def spec_define_new_numeric (current incoming : Option Int) : Option Int :=
  match current, incoming with
  | some c, some n => some (min c n)
  | none, some n => some n
  | c, none => c

/-- The spec (§4.4) merge rule for boolean flags: logical or. -/
def spec_define_new_flag (current incoming : Option Bool) : Option Bool :=
  match current, incoming with
  | some c, some n => some (c || n)
  | none, some n => some n
  | c, none => c

/- ===================== Secrets / environment sorter =====================
   Source: src/ecs_composex/ecs/ecs_family/__init__.py lines 514-585 -/

/-- One entry of a container definition `Secrets` list.  `is_secret_type`
models `isinstance(entry, troposphere.ecs.Secret)`; other entries are kept but
never sorted. -/
structure SecretEntry where
  Name : String
  is_secret_type : Bool
  deriving DecidableEq, Repr

/-- One entry of a container definition `Environment` list.
`is_environment_type` models `isinstance(entry, troposphere.ecs.Environment)`;
entries that are not `Environment` instances (such as the `AWS_DEFAULT_REGION`
`If` conditional) are the "non-name-keyed special values" and their `Name` is
never read by the sorter. -/
structure EnvEntry where
  Name : String
  Value : String
  is_environment_type : Bool
  deriving DecidableEq, Repr

/-- Python's string comparison, used by `sorted(key=lambda x: x.Name)`:
lexicographic by code point, with a proper prefix ordered first. -/
def chars_le : List Char → List Char → Bool
  | [], _ => true
  | _ :: _, [] => false
  | c :: cs, d :: ds => if c = d then chars_le cs ds else decide (c < d)

/-- Ordering key of `sorted(strictly_secrets, key=lambda _secret: _secret.Name)`. -/
def secret_name_le (a b : SecretEntry) : Prop := chars_le a.Name.data b.Name.data = true

instance : DecidableRel secret_name_le :=
  fun a b => inferInstanceAs (Decidable (chars_le a.Name.data b.Name.data = true))

/-- Ordering key of `sorted(strictly_env_vars, key=lambda _env_var: _env_var.Name)`. -/
def env_name_le (a b : EnvEntry) : Prop := chars_le a.Name.data b.Name.data = true

instance : DecidableRel env_name_le :=
  fun a b => inferInstanceAs (Decidable (chars_le a.Name.data b.Name.data = true))

/-- The container definition attributes the sorter reads and writes.  A `none`
attribute models both "attribute never set" and `NoValue` (absent in the
serialized output); `getattr(c, attr, [])` is `Option.getD [] `. -/
structure ContainerDef where
  Secrets : Option (List SecretEntry)
  Environment : Option (List EnvEntry)
  deriving DecidableEq, Repr

/-- Embedding of `ComposeFamily.sort_secrets` (ecs_family/__init__.py lines 514-531) on a
nonempty `secrets` list: partition into `Secret` instances and others, sort the
former by `Name`, append the others, and set the attribute to the result (or to
`NoValue` when empty). -/
def sort_secrets_value (secrets : List SecretEntry) : Option (List SecretEntry) :=
  let strictly_secrets := secrets.filter (fun s => s.is_secret_type)
  let non_secret_type := secrets.filter (fun s => !s.is_secret_type)
  let sorted_secrets := strictly_secrets.insertionSort secret_name_le ++ non_secret_type
  if sorted_secrets.isEmpty then none else some sorted_secrets

/-- Embedding of `ComposeFamily.sort_env_vars` (ecs_family/__init__.py lines 533-568).
Returns the new `Environment` attribute value together with the names of the
dropped environment variables, each reported by a `LOG.warning` naming it (the
source iterates `reversed(tuple(enumerate(sorted_env)))`, hence the reverse
order).  `container_secrets` is `getattr(service.container_definition,
"Secrets", [])`, read inside the function for `secrets_names`; `secrets_arg` is
the `secrets` parameter, which the source only tests for truthiness and
list-ness. -/
def sort_env_vars_value (environment : List EnvEntry) (container_secrets : List SecretEntry)
    (secrets_arg : List SecretEntry) : Option (List EnvEntry) × List String :=
  let strictly_env_vars := environment.filter (fun e => e.is_environment_type)
  let non_env_vars := environment.filter (fun e => !e.is_environment_type)
  let sorted_env := strictly_env_vars.insertionSort env_name_le
  let secrets_names := container_secrets.map (fun s => s.Name)
  let do_remove := !sorted_env.isEmpty && !secrets_arg.isEmpty
  let dropped :=
    if do_remove then
      ((sorted_env.filter (fun e => decide (e.Name ∈ secrets_names))).reverse).map
        (fun e => e.Name)
    else []
  let kept_env :=
    if do_remove then sorted_env.filter (fun e => !decide (e.Name ∈ secrets_names))
    else sorted_env
  let final_env := kept_env ++ non_env_vars
  (if final_env.isEmpty then none else some final_env, dropped)

/-- The per-container body of `ComposeFamily.sort_secrets_env_vars`
(ecs_family/__init__.py lines 570-585): sort the secrets when the `Secrets`
attribute is truthy, then sort the environment (against the freshly sorted
`Secrets` attribute) when the `Environment` attribute is truthy. -/
def sort_secrets_env_vars_container (c : ContainerDef) : ContainerDef × List String :=
  let secrets := c.Secrets.getD []
  let c1 := if !secrets.isEmpty then { c with Secrets := sort_secrets_value secrets } else c
  let environment := c1.Environment.getD []
  if !environment.isEmpty then
    let result := sort_env_vars_value environment (c1.Secrets.getD []) (c1.Secrets.getD [])
    ({ c1 with Environment := result.1 }, result.2)
  else (c1, [])

/-- Embedding of `ComposeFamily.sort_secrets_env_vars`: the loop over `self.services`
applies the per-container body to every container definition. -/
def sort_secrets_env_vars (containers : List ContainerDef) : List (ContainerDef × List String) :=
  containers.map sort_secrets_env_vars_container

/- ===================== Load balancer listener default actions =====================
   Source: src/ecs_composex/elbv2/elbv2_stack/helpers.py and
           src/ecs_composex/elbv2/elbv2_stack/elbv2_listener/__init__.py -/

/-- One target declared under a listener's `Targets` key, with the parts the
default-action logic reads.  `Conditions` entries are kept opaque (they are
passed through `import_record_properties` unchanged in structure);
`target_arn` is set by the earlier target-mapping phase; `auth_cognito` /
`auth_oidc` model `keyisset` on the two authentication config keys. -/
structure ListenerTargetDef where
  name : String
  target_arn : Option String
  Conditions : List String
  access : Option String
  auth_cognito : Bool
  auth_oidc : Bool
  deriving DecidableEq, Repr

/-- A synthesized listener action.  The `Order` values mirror the source; for
`tea_pot` and `http_to_https_default` the flag records whether `Order` is the
literal `50000` (`default_of_all=True`) or `Ref(AWS_NO_VALUE)`. -/
inductive LBAction where
  | forward (target_arn : String) (order : Nat)
  | authenticate_cognito (order : Nat)
  | authenticate_oidc (order : Nat)
  | fixed_response_tea_pot (order_50000 : Bool)
  | redirect_http_to_https (order_50000 : Bool)
  deriving DecidableEq, Repr

/-- A synthesized listener rule condition. -/
inductive LBCondition where
  | user_defined (c : String)
  | host_header (domain : String)
  | path_pattern (path : String)
  deriving DecidableEq, Repr

/-- The exceptions raised along the listener default-action code paths. -/
inductive LBError where
  /-- `KeyError` of `define_actions`: no `target_arn` in the target definition. -/
  | no_target_arn (name : String)
  /-- `AttributeError` of `define_actions`: authentication requires certificates. -/
  | auth_requires_certificates
  /-- `AttributeError` of `define_actions`: authentication requires HTTPS. -/
  | auth_requires_https (protocol : String)
  /-- `ValueError` of `handle_string_condition_format`: unintelligible access string. -/
  | invalid_access (access : String)
  /-- `ValueError` of `define_default_actions`: NLB with more than one target. -/
  | nlb_multiple_targets
  /-- `KeyError` of `handle_default_actions`: unsupported action source. -/
  | unsupported_default_action (key : String)
  /-- `ValueError` of `handle_predefined_redirects`: unknown redirect name. -/
  | invalid_redirect (name : String)
  /-- `ValueError` of `define_default_actions`: no default action determined. -/
  | no_default_action
  deriving DecidableEq, Repr

/-- Python's `str.split(sep)` on the character list of a string: the list of
(possibly empty) chunks between separator occurrences. -/
def split_on_char (sep : Char) : List Char → List (List Char)
  | [] => [[]]
  | c :: cs =>
    let rest := split_on_char sep cs
    if c = sep then [] :: rest
    else
      match rest with
      | chunk :: chunks => (c :: chunk) :: chunks
      | [] => [[c]]

/-- Character-level transcription of `path_re = (^/[\S]+$)`: a slash followed
by one or more non-whitespace characters. -/
def matches_path_chars : List Char → Bool
  | '/' :: rest => !rest.isEmpty && rest.all (fun ch => !ch.isWhitespace)
  | _ => false

/-- Test for `path_re` on a string. -/
def matches_path_re (s : String) : Bool := matches_path_chars s.data

/-- One domain label of `domain_re`: `[A-Za-z0-9\-]` repeated 1 to 63 times. -/
def is_domain_label (label : List Char) : Bool :=
  decide (1 ≤ label.length) && decide (label.length ≤ 63) &&
    label.all (fun ch => ch.isAlphanum || ch == '-')

/-- The label checks shared by `domain_re` and the domain group of
`domain_path_re`: dot-separated labels with an optional trailing dot, not
starting with `-` (lookahead `(?!-)`) and not ending with `-` (lookbehind
`(?<!-)`). -/
def domain_chars_ok (cs : List Char) : Bool :=
  let body := if cs.getLast? == some '.' then cs.dropLast else cs
  !(cs.head? == some '-') && !(cs.getLast? == some '-') &&
    !body.isEmpty && (split_on_char '.' body).all is_domain_label

/-- Character-level transcription of `domain_re`: domain labels with total
length 1 to 255 (lookahead `(?=.{1,255}$)`). -/
def matches_domain_re (s : String) : Bool :=
  decide (1 ≤ s.data.length) && decide (s.data.length ≤ 255) && domain_chars_ok s.data

/-- The part of an access string before its first slash. -/
def access_before_slash (s : String) : List Char :=
  (split_on_char '/' s.data).headD []

/-- The part of an access string from its first slash (inclusive) to the end:
the path group of `domain_path_re`. -/
def access_path_section (s : String) : String :=
  String.mk ('/' :: List.intercalate ['/'] (split_on_char '/' s.data).tail)

/-- The domain group of `domain_path_re`: the prefix before the first slash
with an optional `:port` suffix removed. -/
def access_domain_section (s : String) : String :=
  String.mk ((split_on_char ':' (access_before_slash s)).headD [])

/-- Whether the prefix before the first slash carries a valid optional
`(?::[0-9]{1,5})?` port suffix. -/
def access_port_section_ok (s : String) : Bool :=
  match split_on_char ':' (access_before_slash s) with
  | [_] => true
  | [_, port] =>
    decide (1 ≤ port.length) && decide (port.length ≤ 5) && port.all Char.isDigit
  | _ => false

/-- Character-level transcription of `domain_path_re`: a domain (as in
`domain_re`, but with the `(?=.{1,255}$)` length lookahead ranging over the
whole remaining string), an optional `:port`, and a path group matching
`(/[\S]+$)`. -/
def matches_domain_path_re (s : String) : Bool :=
  decide (1 ≤ s.data.length) && decide (s.data.length ≤ 255) &&
    decide ((split_on_char '/' s.data).length ≥ 2) &&
    access_port_section_ok s &&
    domain_chars_ok ((split_on_char ':' (access_before_slash s)).headD []) &&
    matches_path_re (access_path_section s)

/-- Embedding of `handle_string_condition_format` (helpers.py lines 227-278): try the
domain-plus-path pattern (host-header plus path-pattern conditions), then the
domain pattern (host-header), then the path pattern (path-pattern), else raise. -/
def handle_string_condition_format (access_string : String) :
    Except LBError (List LBCondition) :=
  if matches_domain_path_re access_string then
    .ok [ .host_header (access_domain_section access_string),
          .path_pattern (access_path_section access_string) ]
  else if matches_domain_re access_string then
    .ok [ .host_header access_string ]
  else if matches_path_re access_string then
    .ok [ .path_pattern access_string ]
  else .error (.invalid_access access_string)

/-- Embedding of `define_target_conditions` (helpers.py lines 281-306): user-declared
`Conditions` win (imported unchanged); otherwise a truthy `access` string is
parsed; otherwise the empty condition list is returned. -/
def define_target_conditions (definition : ListenerTargetDef) :
    Except LBError (List LBCondition) :=
  if !definition.Conditions.isEmpty then
    .ok (definition.Conditions.map LBCondition.user_defined)
  else
    match definition.access with
    | some a => if a.isEmpty then .ok [] else handle_string_condition_format a
    | none => .ok []

/-- The parts of a `ComposeListener` the default-action logic reads.
`certificates_attr` is `none` when the `Certificates` attribute was never set
(`hasattr` is false) and `some l` when set to `l`; `default_actions` holds the
user-declared `DefaultActions` entries as (single key, value) pairs. -/
structure ListenerDef where
  title : String
  Protocol : String
  certificates_attr : Option (List String)
  default_actions : List (String × String)
  services : List ListenerTargetDef
  deriving DecidableEq, Repr

/-- Embedding of `define_actions` (helpers.py lines 309-377).  The `rule_actions` parameter
of the source only selects `Action` versus `ListenerRuleAction` as the record
class, which is not observable in this embedding.  An authentication action
demands a truthy `Certificates` attribute when that attribute exists, and the
HTTPS protocol; the forward action carries `Order` 2 after an authentication
action and 1 otherwise. -/
def define_actions (listener : ListenerDef) (target_def : ListenerTargetDef) :
    Except LBError (List LBAction) :=
  match target_def.target_arn with
  | none => .error (.no_target_arn target_def.name)
  | some arn =>
    if target_def.auth_cognito || target_def.auth_oidc then
      if (listener.certificates_attr.map List.isEmpty).getD false then
        .error .auth_requires_certificates
      else if listener.Protocol != "HTTPS" then
        .error (.auth_requires_https listener.Protocol)
      else
        .ok [ (if target_def.auth_cognito then .authenticate_cognito 1
               else .authenticate_oidc 1),
              .forward arn 2 ]
    else
      .ok [ .forward arn 1 ]

/-- A synthesized `ListenerRule`. -/
structure ListenerRuleDef where
  name : String
  Priority : Nat
  Actions : List LBAction
  Conditions : List LBCondition
  deriving DecidableEq, Repr

/-- Embedding of `NONALPHANUM.sub("", s)`: strip every non-alphanumeric character. -/
def strip_non_alphanum (s : String) : String :=
  String.mk (s.toList.filter Char.isAlphanum)

/-- The `for count, service_def in enumerate(left_services)` loop of
`define_listener_rules_actions` (helpers.py lines 388-397), with `count`
explicit.  The keyword arguments of the `ListenerRule` constructor are
evaluated left to right, so `define_actions` runs (and can raise) before
`define_target_conditions`. -/
def define_listener_rules_loop (listener : ListenerDef) (offset : Nat) :
    Nat → List ListenerTargetDef → Except LBError (List ListenerRuleDef)
  | _, [] => .ok []
  | count, service_def :: rest => do
    let actions ← define_actions listener service_def
    let conditions ← define_target_conditions service_def
    let tail ← define_listener_rules_loop listener offset (count + 1) rest
    return { name := listener.title ++ strip_non_alphanum service_def.name
                      ++ "Rule" ++ toString count
             Priority := count + 1 + offset
             Actions := actions
             Conditions := conditions } :: tail

/-- Embedding of `define_listener_rules_actions` (helpers.py lines 380-398): one rule per
remaining service, with `Priority = count + 1 + offset` where `offset` is drawn
once per call as `random.randint(1, 100)` and is taken here as a parameter. -/
def define_listener_rules_actions (listener : ListenerDef)
    (left_services : List ListenerTargetDef) (offset : Nat) :
    Except LBError (List ListenerRuleDef) :=
  define_listener_rules_loop listener offset 0 left_services

/-- The `enumerate`-and-`pop` search of `handle_non_default_services` (helpers.py
lines 405-413): find the first service whose `access` is the string "/", and
return it together with the remaining services in order. -/
def pop_first_access_root : List ListenerTargetDef →
    Option (ListenerTargetDef × List ListenerTargetDef)
  | [] => none
  | service_def :: rest =>
    if service_def.access == some "/" then some (service_def, rest)
    else
      match pop_first_access_root rest with
      | some (found, left) => some (found, service_def :: left)
      | none => none

/-- Embedding of `handle_non_default_services` (helpers.py lines 401-419): the first target
with access "/" becomes the default action; if none matches, a warning is
logged and the `tea_pot(True)` fixed response becomes the default.  The
conditional rules are then built from the remaining targets. -/
def handle_non_default_services (listener : ListenerDef) (offset : Nat) :
    Except LBError (List LBAction × List ListenerRuleDef) :=
  match pop_first_access_root listener.services with
  | some (service_def, left_services) => do
    let acts ← define_actions listener service_def
    let rules ← define_listener_rules_actions listener left_services offset
    return (acts, rules)
  | none => do
    let rules ← define_listener_rules_actions listener listener.services offset
    return ([ .fixed_response_tea_pot true ], rules)

/-- Embedding of `handle_predefined_redirects` (helpers.py lines 190-206): a known redirect
name inserts its predefined action at index 0 of `DefaultActions`. -/
def handle_predefined_redirects (current_default_actions : List LBAction)
    (action_name : String) : Except LBError (List LBAction) :=
  if action_name != "HTTP_TO_HTTPS" && action_name != "TEA_POT" then
    .error (.invalid_redirect action_name)
  else
    .ok ((if action_name == "HTTP_TO_HTTPS" then LBAction.redirect_http_to_https false
          else LBAction.fixed_response_tea_pot false) :: current_default_actions)

/-- Embedding of `handle_default_actions` (helpers.py lines 209-224): every declared default
action must have the `Redirect` source key and is dispatched to
`handle_predefined_redirects`; `DefaultActions` starts as `[]` (set in
`ComposeListener.__init__`). -/
def handle_default_actions (listener : ListenerDef) : Except LBError (List LBAction) :=
  listener.default_actions.foldlM
    (fun acc action_def =>
      if action_def.1 != "Redirect" then .error (.unsupported_default_action action_def.1)
      else handle_predefined_redirects acc action_def.2)
    []

/-- Embedding of `ComposeListener.define_default_actions` (elbv2_listener/__init__.py lines
114-158), returning the resulting `DefaultActions` together with the
synthesized conditional rules (the source then adds the rules to the template
when the load balancer is an ALB).  `lb_is_nlb` models `lb.is_nlb()`;
`offset` is the per-listener `random.randint(1, 100)` draw used for the
synthesized rule priorities. -/
def define_default_actions (lb_is_nlb : Bool) (listener : ListenerDef) (offset : Nat) :
    Except LBError (List LBAction × List ListenerRuleDef) :=
  if listener.default_actions.isEmpty && listener.services.isEmpty then
    .ok ([], [])
  else if !listener.default_actions.isEmpty then do
    let acts ← handle_default_actions listener
    return (acts, [])
  else
    match listener.services with
    | [only] =>
      if only.Conditions.isEmpty then do
        let acts ← define_actions listener only
        return (acts, [])
      else do
        let rules ← define_listener_rules_actions listener [only] offset
        return ([ .fixed_response_tea_pot true ], rules)
    | others =>
      if lb_is_nlb && decide (others.length > 1) then .error .nlb_multiple_targets
      else if decide (others.length > 1) then handle_non_default_services listener offset
      else .error .no_default_action

/- ===================== Capacity providers and launch type =====================
   Source: src/ecs_composex/ecs_cluster/ecs_family_helpers.py -/

/-- Modelled from the spec: the `FARGATE_PROVIDERS` constant imported from
`ecs_composex.ecs_cluster` (a module of this repository that is not under
`src/`), the set of serverless capacity providers, which the spec (§4.2, §8
Scenario F) identifies as FARGATE and FARGATE_SPOT. -/
def FARGATE_PROVIDERS : List String := ["FARGATE", "FARGATE_SPOT"]

/-- The remote cluster descriptor fields used by the launch-type logic
(spec §6): declared capacity providers and the default strategy providers. -/
structure ClusterDef where
  capacity_providers : List String
  default_strategy_providers : List String
  deriving DecidableEq, Repr

/-- The errors raised by the capacity provider validation, with the data each
message reports. -/
inductive CapacityProviderError where
  /-- `ValueError` "... You cannot mix FARGATE capacity provider with
  AutoScaling Capacity Providers", reporting the family's provider names only. -/
  | mixedProviders (cap_names : List String)
  /-- `ValueError` "Providers ... not defined in ECS Cluster providers.
  Available providers are ...", reporting the family's provider names and the
  cluster's capacity providers. -/
  | notInCluster (cap_names : List String) (cluster_providers : List String)
  /-- `AttributeError` of `set_launch_type_from_cluster_and_service`: "Family
  ... tries to use providers not available in the cluster. Wants ...
  Available ...". -/
  | wantsNotAvailable (family_providers : List String) (cluster_providers : List String)
  deriving DecidableEq, Repr

/-- Whether an error message reports the cluster's available providers. -/
def error_names_cluster_providers : CapacityProviderError → Bool
  | .mixedProviders _ => false
  | .notInCluster _ _ => true
  | .wantsNotAvailable _ _ => true

/-- Embedding of `validate_capacity_providers` (ecs_family_helpers.py lines 25-60).
`family_providers` is the `cap_names` list of the family's declared capacity
provider names; the `isinstance(cluster.capacity_providers, list)` check always
passes in this typed embedding.  The source returns `True` on the two early
exits and falls through (returning `None`) when all checks pass. -/
def validate_capacity_providers (family_providers cluster_providers : List String) :
    Except CapacityProviderError (Option Bool) :=
  if family_providers.isEmpty && cluster_providers.isEmpty then
    .ok (some true)
  else if cluster_providers.isEmpty then
    .ok (some true)
  else if !family_providers.all (fun cap_name => FARGATE_PROVIDERS.contains cap_name) then
    .error (.mixedProviders family_providers)
  else if !family_providers.all (fun provider => cluster_providers.contains provider) then
    .error (.notInCluster family_providers cluster_providers)
  else
    .ok none

/-- Embedding of `set_launch_type_from_cluster_and_service` (ecs_family_helpers.py lines
102-138): both the family and the cluster declare providers; a family provider
missing from the cluster raises; all-serverless on both sides gives
`FARGATE_PROVIDERS` (the managed-serverless launch mode), otherwise
`SERVICE_MODE` (the mixed serverless-or-autoscaled mode). -/
def set_launch_type_from_cluster_and_service (family_providers : List String)
    (cluster : ClusterDef) : Except CapacityProviderError String :=
  let family_uses_fargate_only :=
    family_providers.all (fun provider => FARGATE_PROVIDERS.contains provider)
  let cluster_uses_fargate_only :=
    cluster.capacity_providers.all (fun provider => FARGATE_PROVIDERS.contains provider)
  if !family_providers.all (fun provider => cluster.capacity_providers.contains provider) then
    .error (.wantsNotAvailable family_providers cluster.capacity_providers)
  else if family_uses_fargate_only && cluster_uses_fargate_only then
    .ok "FARGATE_PROVIDERS"
  else
    .ok "SERVICE_MODE"

/-- Embedding of `set_launch_type_from_cluster_only` (ecs_family_helpers.py lines 141-167):
the family declares no providers.  The first disjunct tests whether any default
strategy provider is FARGATE or FARGATE_SPOT; the second transcribes
`all(provider in cluster.capacity_providers for provider in
["FARGATE", "FARGATE_SPOT"])`, which tests that both FARGATE and FARGATE_SPOT
are members of the cluster's provider list (note the direction: it is not the
"all cluster providers are FARGATE related" test of the docstring). -/
def set_launch_type_from_cluster_only (cluster : ClusterDef) : String :=
  if cluster.default_strategy_providers.any
       (fun provider => ["FARGATE", "FARGATE_SPOT"].contains provider)
     || ["FARGATE", "FARGATE_SPOT"].all
       (fun provider => cluster.capacity_providers.contains provider) then
    "FARGATE_PROVIDERS"
  else
    "CLUSTER_MODE"

/-- The serverless condition stated by the spec for the cluster-only case
(§4.2 rule 4) and by the function's own docstring, used here only to exhibit
the divergence of the code from it: the cluster's default strategy includes a
serverless provider, or every cluster capacity provider is FARGATE related. -/
def spec_cluster_only_serverless (cluster : ClusterDef) : Bool :=
  cluster.default_strategy_providers.any
    (fun provider => ["FARGATE", "FARGATE_SPOT"].contains provider)
  || cluster.capacity_providers.all
    (fun provider => FARGATE_PROVIDERS.contains provider)

/-- Embedding of `set_service_launch_type` (ecs_family_helpers.py lines 169-187): EXTERNAL
and EC2 launch types are left untouched; otherwise dispatch on which of the
family and the cluster declare capacity providers, returning the resulting
family launch type. -/
def set_service_launch_type (launch_type : String) (family_providers : List String)
    (cluster : ClusterDef) : Except CapacityProviderError String :=
  if launch_type == "EXTERNAL" || launch_type == "EC2" then
    .ok launch_type
  else if !family_providers.isEmpty && !cluster.capacity_providers.isEmpty then
    set_launch_type_from_cluster_and_service family_providers cluster
  else if family_providers.isEmpty && !cluster.capacity_providers.isEmpty then
    .ok (set_launch_type_from_cluster_only cluster)
  else
    .ok launch_type

/- ===================== Statement-support definitions ===================== -/

/-- The `target` keys of a port list (the merge key of the port merger). -/
def port_targets (ports : List PortDef) : List Nat := ports.map (fun port => port.target)

/-- Every `target` key declared across a list of port sets. -/
def all_port_targets (source_ports : List (List PortDef)) : List Nat :=
  (source_ports.map port_targets).flatten

/-- The last port set in declaration order that declares a given `target` key
(the spec's "incoming service declaring the same key" that wins the merge). -/
def last_declaring (source_ports : List (List PortDef)) (t : Nat) : Option (List PortDef) :=
  source_ports.foldl (fun acc port_set => if t ∈ port_targets port_set then some port_set else acc)
    none

instance {e a : Type} [DecidableEq e] [DecidableEq a] : DecidableEq (Except e a) := fun x y =>
  match x, y with
  | .ok v, .ok w => if h : v = w then isTrue (by rw [h]) else isFalse (by simp [h])
  | .error v, .error w => if h : v = w then isTrue (by rw [h]) else isFalse (by simp [h])
  | .ok _, .error _ => isFalse (by simp)
  | .error _, .ok _ => isFalse (by simp)

/- ===================== Port merger lemmas ===================== -/

theorem foldl_append_step (K : List PortDef) :
    ∀ (l : List PortDef) (a : List PortDef),
      l.foldl (fun ports port => ports ++ [port] ++ K) a
        = a ++ (l.map (fun p => p :: K)).flatten
  | [], a => by simp
  | p :: l, a => by
    simp only [List.foldl_cons, List.map_cons, List.flatten_cons]
    rw [foldl_append_step K l (a ++ [p] ++ K)]
    simp

theorem merge_ports_step_eq (acc port_set : List PortDef) :
    merge_ports_step acc port_set
      = (port_set.map (fun p => p :: acc.filter
          (fun s => !decide (s.target ∈ port_targets port_set)))).flatten := by
  unfold merge_ports_step set_service_ports port_targets
  rw [foldl_append_step]
  simp

theorem filter_survive_cons (S : List PortDef) (sets : List (List PortDef)) (P : List PortDef) :
    (P.filter (fun s => !decide (s.target ∈ port_targets S))).filter
        (fun r => !decide (r.target ∈ all_port_targets sets))
      = P.filter (fun r => !decide (r.target ∈ all_port_targets (S :: sets))) := by
  rw [List.filter_filter]
  apply List.filter_congr
  intro x _
  have h : x.target ∈ all_port_targets (S :: sets)
      ↔ x.target ∈ port_targets S ∨ x.target ∈ all_port_targets sets := by
    simp [all_port_targets]
  simp only [decide_eq_decide.mpr h]
  by_cases h1 : x.target ∈ port_targets S <;>
    by_cases h2 : x.target ∈ all_port_targets sets <;> simp [h1, h2]

theorem foldl_merge_congr :
    ∀ (sets : List (List PortDef)) (P Q : List PortDef),
      P.filter (fun r => !decide (r.target ∈ all_port_targets sets))
        = Q.filter (fun r => !decide (r.target ∈ all_port_targets sets)) →
      merge_services_ports P sets = merge_services_ports Q sets
  | [], P, Q, h => by
    simpa [merge_services_ports, all_port_targets, List.filter_eq_self] using h
  | S :: sets, P, Q, h => by
    simp only [merge_services_ports, List.foldl_cons]
    apply foldl_merge_congr sets
    rw [merge_ports_step_eq, merge_ports_step_eq, List.filter_flatten, List.filter_flatten,
      List.map_map, List.map_map]
    congr 1
    apply List.map_congr_left
    intro p _
    simp only [Function.comp_apply, List.filter_cons]
    rw [filter_survive_cons, filter_survive_cons, h]

theorem mem_merge_targets :
    ∀ (sets : List (List PortDef)) (P : List PortDef) (r : PortDef),
      r ∈ merge_services_ports P sets → r.target ∈ all_port_targets sets ∨ r ∈ P
  | [], P, r, h => .inr (by simpa [merge_services_ports] using h)
  | S :: sets, P, r, h => by
    simp only [merge_services_ports, List.foldl_cons] at h
    rcases mem_merge_targets sets (merge_ports_step P S) r h with h1 | h2
    · left
      simp only [all_port_targets, List.map_cons, List.flatten_cons, List.mem_append]
      right
      simpa [all_port_targets] using h1
    · rw [merge_ports_step_eq] at h2
      rcases List.mem_flatten.mp h2 with ⟨l, hl, hrl⟩
      rcases List.mem_map.mp hl with ⟨p, hp, rfl⟩
      rcases List.mem_cons.mp hrl with rfl | hkept
      · left
        simp only [all_port_targets, List.map_cons, List.flatten_cons, List.mem_append]
        left
        exact List.mem_map_of_mem (fun port => port.target) hp
      · exact .inr (List.mem_of_mem_filter hkept)

theorem merge_services_ports_idem (source_ports : List (List PortDef)) :
    merge_services_ports (merge_services_ports [] source_ports) source_ports
      = merge_services_ports [] source_ports := by
  apply foldl_merge_congr
  rw [List.filter_eq_nil_iff.mpr, List.filter_eq_nil_iff.mpr]
  · intro a ha
    simp at ha
  · intro a ha
    rcases mem_merge_targets source_ports [] a ha with h | h
    · simp [h]
    · simp at h

theorem last_declaring_foldl (t : Nat) :
    ∀ (sets : List (List PortDef)) (init : Option (List PortDef)),
      sets.foldl (fun acc s => if t ∈ port_targets s then some s else acc) init
        = match sets.foldl (fun acc s => if t ∈ port_targets s then some s else acc) none with
          | some s => some s
          | none => init
  | [], init => by simp
  | S :: sets, init => by
    simp only [List.foldl_cons]
    rw [last_declaring_foldl t sets (if t ∈ port_targets S then some S else init),
      last_declaring_foldl t sets (if t ∈ port_targets S then some S else none)]
    cases sets.foldl (fun acc s => if t ∈ port_targets s then some s else acc) none with
    | some s => rfl
    | none => by_cases h : t ∈ port_targets S <;> simp [h]

theorem last_declaring_cons (t : Nat) (S : List PortDef) (sets : List (List PortDef)) :
    last_declaring (S :: sets) t
      = match last_declaring sets t with
        | some s => some s
        | none => if t ∈ port_targets S then some S else none := by
  unfold last_declaring
  simp only [List.foldl_cons]
  rw [last_declaring_foldl t sets (if t ∈ port_targets S then some S else none)]

theorem mem_merge_last_declaring :
    ∀ (sets : List (List PortDef)) (P : List PortDef) (r : PortDef),
      r ∈ merge_services_ports P sets →
      (∃ s, last_declaring sets r.target = some s ∧ r ∈ s) ∨
        (last_declaring sets r.target = none ∧ r ∈ P)
  | [], P, r, h => .inr ⟨rfl, by simpa [merge_services_ports] using h⟩
  | S :: sets, P, r, h => by
    simp only [merge_services_ports, List.foldl_cons] at h
    rcases mem_merge_last_declaring sets (merge_ports_step P S) r h with ⟨s, hs, hrs⟩ | ⟨hnone, hmem⟩
    · left
      exact ⟨s, by rw [last_declaring_cons, hs], hrs⟩
    · rw [merge_ports_step_eq] at hmem
      rcases List.mem_flatten.mp hmem with ⟨l, hl, hrl⟩
      rcases List.mem_map.mp hl with ⟨p, hp, rfl⟩
      rcases List.mem_cons.mp hrl with rfl | hkept
      · left
        refine ⟨S, ?_, hp⟩
        rw [last_declaring_cons, hnone]
        simp [List.mem_map_of_mem (fun port => port.target) hp, port_targets]
      · have hrP := List.mem_of_mem_filter hkept
        have hnotS : ¬ r.target ∈ port_targets S := by
          have := List.of_mem_filter hkept
          simpa using this
        right
        refine ⟨?_, hrP⟩
        rw [last_declaring_cons, hnone]
        simp [hnotS]

theorem merge_keeps_declared_targets :
    ∀ (sets : List (List PortDef)) (P : List PortDef) (t : Nat),
      (∀ s ∈ sets, s ≠ []) →
      (t ∈ all_port_targets sets ∨ ∃ r ∈ P, r.target = t) →
      ∃ r ∈ merge_services_ports P sets, r.target = t
  | [], P, t, _, h => by
    rcases h with h | h
    · simp [all_port_targets] at h
    · simpa [merge_services_ports] using h
  | S :: sets, P, t, hne, h => by
    simp only [merge_services_ports, List.foldl_cons]
    apply merge_keeps_declared_targets sets (merge_ports_step P S) t
      (fun s hs => hne s (List.mem_cons_of_mem _ hs))
    by_cases htS : t ∈ port_targets S
    · right
      rcases List.mem_map.mp htS with ⟨p, hpS, hpt⟩
      refine ⟨p, ?_, hpt⟩
      rw [merge_ports_step_eq]
      exact List.mem_flatten.mpr ⟨_, List.mem_map_of_mem _ hpS, List.mem_cons_self _ _⟩
    · rcases h with hall | ⟨r, hrP, hrt⟩
      · left
        have hsplit : t ∈ port_targets S ++ all_port_targets sets := by
          simpa [all_port_targets] using hall
        rcases List.mem_append.mp hsplit with h1 | h2
        · exact absurd h1 htS
        · exact h2
      · right
        have hSne : S ≠ [] := hne S (List.mem_cons_self _ _)
        match S, hSne with
        | p :: S', _ =>
          refine ⟨r, ?_, hrt⟩
          rw [merge_ports_step_eq]
          apply List.mem_flatten.mpr
          refine ⟨_, List.mem_map_of_mem _ (List.mem_cons_self p S'), ?_⟩
          apply List.mem_cons_of_mem
          refine List.mem_filter.mpr ⟨hrP, ?_⟩
          simp [hrt, htS]

/- ===================== Claim C1 ===================== -/

/-- C1, counterexample: a port declared by only one service is not always kept
exactly once.  With service A declaring only port 53 and service B (declared
after A) declaring ports 80 and 443, port 53 appears twice in the merged
family port set, because the source appends the non-overridden accumulated
ports once per port of the incoming service. -/
theorem claim_C1_counterexample :
    (family_merged_ports []
        [PortedService.mk "A" [PortDef.mk 53 none "udp"],
         PortedService.mk "B" [PortDef.mk 80 (some 9090) "tcp", PortDef.mk 443 (some 9443) "tcp"]]).count
        (PortDef.mk 53 none "udp") = 2 := by decide

/-- C1, amended: merging the member services' port lists processes the services
in order and overrides by `target` key: Scenario A produces exactly B's 80 and
443 entries; in general every merged entry comes from the last service (in
managed-side-cars-then-ordered-services order) whose port set declares that
entry's `target` key, and every declared `target` key is kept at least once —
but a port declared only by an earlier service may be appended once per port
of each later non-overriding service's port set, so "exactly once" does not
hold in general. -/
theorem claim_C1_port_merge :
    (family_merged_ports []
        [PortedService.mk "A" [PortDef.mk 80 (some 8080) "tcp"],
         PortedService.mk "B" [PortDef.mk 80 (some 9090) "tcp", PortDef.mk 443 (some 9443) "tcp"]]
      = [PortDef.mk 80 (some 9090) "tcp", PortDef.mk 443 (some 9443) "tcp"]) ∧
    (∀ (source_ports : List (List PortDef)) (r : PortDef),
        r ∈ merge_services_ports [] source_ports →
        ∃ port_set, last_declaring source_ports r.target = some port_set ∧ r ∈ port_set) ∧
    (∀ (source_ports : List (List PortDef)) (t : Nat),
        (∀ port_set ∈ source_ports, port_set ≠ []) →
        t ∈ all_port_targets source_ports →
        ∃ r ∈ merge_services_ports [] source_ports, r.target = t) := by
  refine ⟨by decide, ?_, ?_⟩
  · intro source_ports r h
    rcases mem_merge_last_declaring source_ports [] r h with h1 | ⟨_, h2⟩
    · exact h1
    · simp at h2
  · intro source_ports t hne ht
    exact merge_keeps_declared_targets source_ports [] t hne (.inl ht)

/-- C1, witness: the amended theorem applied at a concrete one-service input
declaring port 53. -/
theorem claim_C1_witness :
    ∃ r ∈ merge_services_ports [] [[PortDef.mk 53 none "udp"]], r.target = 53 :=
  claim_C1_port_merge.2.2 [[PortDef.mk 53 none "udp"]] 53 (by decide) (by decide)

/- ===================== Claim C2 ===================== -/

/-- C2, counterexample: re-running the port merge reproduces its output (see
the amended theorem) but the output is not free of duplicate entries: with
service A declaring only port 53 and service B declaring ports 80 and 443,
the merged family port set has a duplicate entry. -/
theorem claim_C2_counterexample :
    ¬ (family_merged_ports []
        [PortedService.mk "A" [PortDef.mk 53 none "udp"],
         PortedService.mk "B" [PortDef.mk 80 (some 9090) "tcp", PortDef.mk 443 (some 9443) "tcp"]]).Nodup := by
  decide

/-- C2, amended: re-running the port merge on identical input a second time
(starting from the previously accumulated `self.ports`) produces identical
output — though that output may contain duplicate entries — and re-adding a
managed side-car whose name is already present in the family's managed
side-cars is a no-op: the side-car list and the task definition's container
list are unchanged and no error is raised. -/
theorem claim_C2_idempotence :
    (∀ source_ports : List (List PortDef),
        merge_services_ports (merge_services_ports [] source_ports) source_ports
          = merge_services_ports [] source_ports) ∧
    (∀ (family : FamilySidecars) (service : SidecarService),
        service.name ∈ family.managed_sidecars.map (fun svc => svc.name) →
        add_managed_sidecar family service = family) := by
  constructor
  · exact merge_services_ports_idem
  · intro family service h
    unfold add_managed_sidecar
    rw [if_pos]
    simp only [Bool.and_eq_true, decide_eq_true_eq]
    refine ⟨?_, h⟩
    rcases List.mem_map.mp h with ⟨svc, hsvc, _⟩
    cases hfam : family.managed_sidecars with
    | nil => rw [hfam] at hsvc; simp at hsvc
    | cons a l => simp

/-- C2, witness: the amended theorem applied at a family already holding a
side-car named "xray-daemon" and a fresh service of the same name. -/
theorem claim_C2_witness :
    add_managed_sidecar
        (FamilySidecars.mk [SidecarService.mk "xray-daemon" (some "xray-container")]
          ["xray-container"] true)
        (SidecarService.mk "xray-daemon" (some "other-container"))
      = FamilySidecars.mk [SidecarService.mk "xray-daemon" (some "xray-container")]
          ["xray-container"] true :=
  claim_C2_idempotence.2 _ _ (by decide)

/- ===================== Step scaling lemmas ===================== -/

instance : IsTotal StepDef step_lower_le :=
  ⟨fun a b => Int.le_total a.LowerBound b.LowerBound⟩

instance : IsTrans StepDef step_lower_le :=
  ⟨fun _ _ _ h1 h2 => le_trans h1 h2⟩

theorem validate_ok_eq :
    ∀ (steps l : List StepDef), validate_steps_definition steps = .ok l → l = steps
  | [], l, h => by
    simpa [validate_steps_definition] using h.symm
  | s :: rest, l, h => by
    by_cases hc : (keyisset_upper s && decide (s.LowerBound ≥ s.UpperBound.getD 0)) = true
    · simp [validate_steps_definition, hc] at h
    · have hc' : (keyisset_upper s && decide (s.LowerBound ≥ s.UpperBound.getD 0)) = false := by
        simpa using hc
      cases hv : validate_steps_definition rest with
      | error e => simp [validate_steps_definition, hc', hv, Bind.bind, Except.bind] at h
      | ok u =>
        simp only [validate_steps_definition, hc', Bool.false_eq_true, if_false,
          Bind.bind, Except.bind, hv, pure, Except.pure, Except.ok.injEq] at h
        rw [← h, validate_ok_eq rest u hv]

theorem validate_err_of_bad :
    ∀ steps : List StepDef,
      (∃ s ∈ steps, keyisset_upper s = true ∧ s.LowerBound ≥ s.UpperBound.getD 0) →
      ∃ s', (keyisset_upper s' = true ∧ s'.LowerBound ≥ s'.UpperBound.getD 0) ∧
        validate_steps_definition steps = .error (.lowerNotBelowUpper s')
  | [], h => by simp at h
  | s :: rest, h => by
    by_cases hc : (keyisset_upper s && decide (s.LowerBound ≥ s.UpperBound.getD 0)) = true
    · refine ⟨s, ?_, by simp [validate_steps_definition, hc]⟩
      simpa using hc
    · have hrest : ∃ x ∈ rest, keyisset_upper x = true ∧ x.LowerBound ≥ x.UpperBound.getD 0 := by
        rcases h with ⟨x, hx, hprop⟩
        rcases List.mem_cons.mp hx with rfl | hxr
        · exact absurd (by simp [hprop.1, hprop.2]) hc
        · exact ⟨x, hxr, hprop⟩
      rcases validate_err_of_bad rest hrest with ⟨s', hs', herr⟩
      exact ⟨s', hs', by simp [validate_steps_definition, hc, herr, Bind.bind, Except.bind]⟩

theorem define_ok_head (pre : Option Int) (t : StepDef) (rest : List StepDef)
    (out : List CfnStep) (h : define_step_adjustment pre (t :: rest) = .ok out)
    (htr : pre_upper_truthy pre = true) : t.LowerBound ≥ pre.getD 0 := by
  by_cases hc : (pre_upper_truthy pre && !decide (t.LowerBound ≥ pre.getD 0)) = true
  · simp [define_step_adjustment, hc] at h
  · simp only [htr, Bool.true_and, Bool.not_eq_true', decide_eq_false_iff_not, not_not] at hc
    exact hc

theorem define_ok_tail (pre : Option Int) (s : StepDef) (rest : List StepDef)
    (out : List CfnStep) (h : define_step_adjustment pre (s :: rest) = .ok out) :
    ∃ out', define_step_adjustment (next_pre_upper s) rest = .ok out' ∧
      out = make_cfn_step s :: out' := by
  by_cases hc : (pre_upper_truthy pre && !decide (s.LowerBound ≥ pre.getD 0)) = true
  · simp [define_step_adjustment, hc] at h
  · cases hd : define_step_adjustment (next_pre_upper s) rest with
    | error e => simp [define_step_adjustment, hc, hd, Bind.bind, Except.bind] at h
    | ok out' =>
      have hc' : (pre_upper_truthy pre && !decide (s.LowerBound ≥ pre.getD 0)) = false := by
        simpa using hc
      refine ⟨out', rfl, ?_⟩
      simp only [define_step_adjustment, hc', Bool.false_eq_true, if_false,
        Bind.bind, Except.bind, hd, pure, Except.pure, Except.ok.injEq] at h
      exact h.symm

theorem define_ok_eq :
    ∀ (pre : Option Int) (l : List StepDef) (out : List CfnStep),
      define_step_adjustment pre l = .ok out → out = l.map make_cfn_step
  | _, [], out, h => by simpa [define_step_adjustment] using h.symm
  | pre, s :: rest, out, h => by
    rcases define_ok_tail pre s rest out h with ⟨out', hout', rfl⟩
    rw [List.map_cons, define_ok_eq (next_pre_upper s) rest out' hout']

theorem next_pre_upper_truthy (s : StepDef) :
    pre_upper_truthy (next_pre_upper s) = keyisset_upper s := by
  unfold next_pre_upper pre_upper_truthy keyisset_upper
  cases h : s.UpperBound with
  | none => simp
  | some v => by_cases hv : v = 0 <;> simp [hv]

theorem define_ok_chain :
    ∀ (pre : Option Int) (l : List StepDef) (out : List CfnStep),
      define_step_adjustment pre l = .ok out →
      List.Chain' (fun a b => keyisset_upper a = true → a.UpperBound.getD 0 ≤ b.LowerBound) l
  | _, [], _, _ => List.chain'_nil
  | _, [s], _, _ => List.chain'_singleton s
  | pre, s :: t :: rest, out, h => by
    rcases define_ok_tail pre s (t :: rest) out h with ⟨out', hout', rfl⟩
    apply List.Chain'.cons
    · intro hks
      have htr : pre_upper_truthy (next_pre_upper s) = true := by
        rw [next_pre_upper_truthy]; exact hks
      have := define_ok_head (next_pre_upper s) t rest out' hout' htr
      have hgd : (next_pre_upper s).getD 0 = s.UpperBound.getD 0 := by
        unfold next_pre_upper
        simp [hks]
      rw [hgd] at this
      exact this
    · exact define_ok_chain (next_pre_upper s) (t :: rest) out' hout'

theorem cfn_eta_none (x : CfnStep) (h : x.MetricIntervalUpperBound = none) :
    { x with MetricIntervalUpperBound := none } = x := by
  cases x
  simp_all

theorem rectify_eq (l₀ : List CfnStep) (x : CfnStep) :
    rectify_scaling_steps (l₀ ++ [x])
      = l₀ ++ [{ x with MetricIntervalUpperBound := none }] := by
  unfold rectify_scaling_steps
  rw [List.getLast?_concat]
  cases hu : x.MetricIntervalUpperBound with
  | none =>
    have hx := cfn_eta_none x hu
    simp [hu, hx]
  | some u =>
    simp [hu, List.dropLast_concat]

theorem chain'_concat_mod {R : CfnStep → CfnStep → Prop} (l₀ : List CfnStep) (x x' : CfnStep)
    (hR : ∀ a, R a x → R a x') (h : List.Chain' R (l₀ ++ [x])) :
    List.Chain' R (l₀ ++ [x']) := by
  rw [List.chain'_append] at h ⊢
  obtain ⟨h1, _, h3⟩ := h
  refine ⟨h1, List.chain'_singleton _, ?_⟩
  intro a ha y hy
  simp only [List.head?_cons, Option.mem_def, Option.some.injEq] at hy
  subst hy
  exact hR a (h3 a ha x rfl)

theorem generate_ok_elim (steps : List StepDef) (max_capacity : Int)
    (cfn_steps : List CfnStep) (new_max : Int)
    (h : generate_scaling_out_steps steps max_capacity = .ok (cfn_steps, new_max)) :
    ∃ top d, (steps.insertionSort step_lower_le).getLast? = some top ∧
      define_step_adjustment (some 0) (steps.insertionSort step_lower_le) = .ok d ∧
      cfn_steps = rectify_scaling_steps d ∧
      new_max = (if top.Count > max_capacity then top.Count else max_capacity) := by
  cases hv : validate_steps_definition steps with
  | error e => simp [generate_scaling_out_steps, hv, Bind.bind, Except.bind] at h
  | ok l =>
    rw [validate_ok_eq steps l hv] at hv
    cases htop : (List.insertionSort step_lower_le steps).getLast? with
    | none => simp [generate_scaling_out_steps, hv, htop, Bind.bind, Except.bind] at h
    | some top =>
      cases hd : define_step_adjustment (some 0) (List.insertionSort step_lower_le steps) with
      | error e =>
        simp [generate_scaling_out_steps, hv, htop, hd, Bind.bind, Except.bind] at h
      | ok d =>
        simp only [generate_scaling_out_steps, hv, htop, hd, Bind.bind, Except.bind,
          pure, Except.pure, Except.ok.injEq, Prod.mk.injEq] at h
        exact ⟨top, d, rfl, rfl, h.1.symm, h.2.symm⟩

/- ===================== Claim C3 ===================== -/

/-- C3: for every step-scaling definition accepted by validation (the generator
returns without raising), the generated step list is sorted ascending by lower
bound, every generated step carrying an upper bound has it at most the next
step's lower bound, the final emitted step has no upper bound, and the
scalable target's maximum capacity is raised to the highest (by lower bound)
step's Count exactly when that Count exceeds the declared maximum, never
truncating capacity. -/
theorem claim_C3_step_scaling (steps : List StepDef) (max_capacity : Int)
    (cfn_steps : List CfnStep) (new_max : Int)
    (h : generate_scaling_out_steps steps max_capacity = .ok (cfn_steps, new_max)) :
    List.Chain' (fun a b => a.MetricIntervalLowerBound ≤ b.MetricIntervalLowerBound) cfn_steps ∧
    List.Chain' (fun a b => ∀ u, a.MetricIntervalUpperBound = some u →
        u ≤ b.MetricIntervalLowerBound) cfn_steps ∧
    (∃ last_step, cfn_steps.getLast? = some last_step ∧
        last_step.MetricIntervalUpperBound = none) ∧
    (∃ top, (steps.insertionSort step_lower_le).getLast? = some top ∧
        new_max = if top.Count > max_capacity then top.Count else max_capacity) := by
  obtain ⟨top, d, htop, hd, hcfn, hmax⟩ :=
    generate_ok_elim steps max_capacity cfn_steps new_max h
  have hdeq : d = (steps.insertionSort step_lower_le).map make_cfn_step :=
    define_ok_eq _ _ _ hd
  have hone : steps.insertionSort step_lower_le ≠ [] := by
    intro hnil
    rw [hnil] at htop
    simp at htop
  have hdne : d ≠ [] := by
    intro hnil
    rw [hnil] at hdeq
    exact hone (List.map_eq_nil_iff.mp hdeq.symm)
  have hsplit : d.dropLast ++ [d.getLast hdne] = d := List.dropLast_append_getLast hdne
  have hchain1 : List.Chain'
      (fun a b => a.MetricIntervalLowerBound ≤ b.MetricIntervalLowerBound) d := by
    rw [hdeq, List.chain'_map]
    exact (List.Pairwise.chain' (List.sorted_insertionSort step_lower_le steps))
  have hchain2 : List.Chain' (fun a b => ∀ u, a.MetricIntervalUpperBound = some u →
      u ≤ b.MetricIntervalLowerBound) d := by
    rw [hdeq, List.chain'_map]
    apply List.Chain'.imp ?_ (define_ok_chain _ _ _ hd)
    intro a b hab u hu
    unfold make_cfn_step at hu
    by_cases hk : keyisset_upper a = true
    · simp only [hk, if_true] at hu
      have := hab hk
      rw [hu] at this
      simpa using this
    · simp only [hk, if_false] at hu
      exact absurd hu (by simp)
  rw [hcfn, ← hsplit, rectify_eq]
  refine ⟨?_, ?_, ?_, top, htop, hmax⟩
  · apply chain'_concat_mod _ _ _ _ (by rw [hsplit]; exact hchain1)
    intro a ha
    exact ha
  · apply chain'_concat_mod _ _ _ _ (by rw [hsplit]; exact hchain2)
    intro a ha u hu
    exact ha u hu
  · exact ⟨_, List.getLast?_concat _, rfl⟩

/-- C3, witness: Scenario B — steps with bands 0-10 (count 1) and 10-unbounded
(count 5) against a declared maximum of 3 pass validation and the maximum is
raised to 5. -/
theorem claim_C3_witness :
    (generate_scaling_out_steps
        [StepDef.mk 0 (some 10) 1, StepDef.mk 10 none 5] 3
      = .ok ([CfnStep.mk 0 (some 10) 1, CfnStep.mk 10 none 5], 5)) ∧
    (∃ top, (([StepDef.mk 0 (some 10) 1, StepDef.mk 10 none 5]).insertionSort
        step_lower_le).getLast? = some top ∧
      (5 : Int) = if top.Count > 3 then top.Count else 3) :=
  ⟨by decide,
    (claim_C3_step_scaling [StepDef.mk 0 (some 10) 1, StepDef.mk 10 none 5] 3
      [CfnStep.mk 0 (some 10) 1, CfnStep.mk 10 none 5] 5 (by decide)).2.2.2⟩

/- ===================== Claim C4 ===================== -/

/-- C4, counterexample: a step whose lower bound (5) is greater than or equal
to its own upper bound (0) is not rejected: `keyisset` treats the falsy value
`0` as an absent key, so the step passes validation and is emitted with no
upper bound, and the whole generation succeeds. -/
theorem claim_C4_counterexample :
    generate_scaling_out_steps [StepDef.mk 5 (some 0) 2] 3
        = .ok ([CfnStep.mk 5 none 2], 3) ∧
    (StepDef.mk 5 (some 0) 2).LowerBound ≥ (StepDef.mk 5 (some 0) 2).UpperBound.getD 0 := by
  constructor
  · rfl
  · decide

/-- C4, amended: step-scaling validation raises a fatal configuration error
identifying the offending step whenever some step has a truthy (nonzero) upper
bound with its lower bound greater than or equal to it, and raises a fatal
configuration error whenever, after ordering by lower bound, some step's lower
bound is below the previous step's truthy (nonzero) upper bound — a step whose
`UpperBound` is `0` is treated by `keyisset` as having no upper bound and
bypasses both checks; in particular steps with bands 0-10 and 5-unbounded are
rejected because 5 is below 10. -/
theorem claim_C4_step_validation :
    (∀ (steps : List StepDef) (max_capacity : Int),
        (∃ s ∈ steps, keyisset_upper s = true ∧ s.LowerBound ≥ s.UpperBound.getD 0) →
        ∃ s', (keyisset_upper s' = true ∧ s'.LowerBound ≥ s'.UpperBound.getD 0) ∧
          generate_scaling_out_steps steps max_capacity
            = .error (.lowerNotBelowUpper s')) ∧
    (∀ (steps : List StepDef) (max_capacity : Int),
        ¬ List.Chain' (fun a b => keyisset_upper a = true →
            a.UpperBound.getD 0 ≤ b.LowerBound) (List.insertionSort step_lower_le steps) →
        ∃ e, generate_scaling_out_steps steps max_capacity = .error e) := by
  constructor
  · intro steps max_capacity hbad
    rcases validate_err_of_bad steps hbad with ⟨s', hs', herr⟩
    exact ⟨s', hs', by simp [generate_scaling_out_steps, herr, Bind.bind, Except.bind]⟩
  · intro steps max_capacity hchain
    cases hv : validate_steps_definition steps with
    | error e => exact ⟨e, by simp [generate_scaling_out_steps, hv, Bind.bind, Except.bind]⟩
    | ok l =>
      rw [validate_ok_eq steps l hv] at hv
      cases htop : (List.insertionSort step_lower_le steps).getLast? with
      | none =>
        exact ⟨.indexError, by
          simp [generate_scaling_out_steps, hv, htop, Bind.bind, Except.bind]⟩
      | some top =>
        cases hd : define_step_adjustment (some 0) (List.insertionSort step_lower_le steps) with
        | error e =>
          exact ⟨e, by
            simp [generate_scaling_out_steps, hv, htop, hd, Bind.bind, Except.bind]⟩
        | ok d => exact absurd (define_ok_chain _ _ _ hd) hchain

theorem chain_fails_scenario_c :
    ¬ List.Chain' (fun a b => keyisset_upper a = true →
        a.UpperBound.getD 0 ≤ b.LowerBound)
        (List.insertionSort step_lower_le
          [StepDef.mk 0 (some 10) 1, StepDef.mk 5 none 5]) := by
  intro h
  have h2 : List.Chain' (fun a b => keyisset_upper a = true →
      a.UpperBound.getD 0 ≤ b.LowerBound)
      [StepDef.mk 0 (some 10) 1, StepDef.mk 5 none 5] := h
  have h3 := (List.chain'_cons.mp h2).1 (by decide)
  exact absurd h3 (by decide)

/-- C4, witness: Scenario C — steps with bands 0-10 and 5-unbounded violate the
ordering check (5 is below the previous upper bound 10) and generation raises. -/
theorem claim_C4_witness :
    (¬ List.Chain' (fun a b => keyisset_upper a = true →
        a.UpperBound.getD 0 ≤ b.LowerBound)
        (List.insertionSort step_lower_le
          [StepDef.mk 0 (some 10) 1, StepDef.mk 5 none 5])) ∧
    (∃ e, generate_scaling_out_steps [StepDef.mk 0 (some 10) 1, StepDef.mk 5 none 5] 3
        = .error e) :=
  ⟨chain_fails_scenario_c,
    claim_C4_step_validation.2 [StepDef.mk 0 (some 10) 1, StepDef.mk 5 none 5] 3
      chain_fails_scenario_c⟩

/- ===================== Claim C5 ===================== -/

/-- C5: the claim (and the spec §4.4) states that numeric targets defined by
both services combine by minimum and boolean flags by logical or — but because
`define_new_config` hands `handle_defined_target_scaling_props` a plain string
whose `prop[1] is int` / `prop[1] is bool` tests are always `False`, the merge
keeps the first service's value: merging `CpuTarget` 50 then 30 yields 50 (the
spec rule yields 30), and a second service enabling `DisableScaleIn` leaves it
disabled (the spec rule enables it).  The code contradicts the spec and its own
(unreachable) min / logical-or / warning branch bodies. -/
theorem claim_C5_target_scaling_code_bug :
    (merge_family_target_scaling
        [TargetScalingConfig.mk (some 50) none none none none none,
         TargetScalingConfig.mk (some 30) none (some true) none none none]).CpuTarget
      = some 50 ∧
    spec_define_new_numeric (some 50) (some 30) = some 30 ∧
    (merge_family_target_scaling
        [TargetScalingConfig.mk (some 50) none none none none none,
         TargetScalingConfig.mk (some 30) none (some true) none none none]).DisableScaleIn
      = some false ∧
    spec_define_new_flag (some false) (some true) = some true := by
  refine ⟨rfl, by decide, rfl, by decide⟩

/- ===================== Secrets / environment sorter lemmas ===================== -/

theorem chars_le_total : ∀ a b : List Char, chars_le a b = true ∨ chars_le b a = true
  | [], _ => .inl rfl
  | _ :: _, [] => .inr rfl
  | c :: cs, d :: ds => by
    by_cases h : c = d
    · subst h
      simp only [chars_le, if_pos rfl]
      exact chars_le_total cs ds
    · rcases lt_trichotomy c d with h1 | h1 | h1
      · left
        simp [chars_le, h, h1]
      · exact absurd h1 h
      · right
        simp [chars_le, Ne.symm h, h1]

theorem chars_le_trans :
    ∀ a b c : List Char, chars_le a b = true → chars_le b c = true → chars_le a c = true
  | [], _, _, _, _ => rfl
  | _ :: _, [], _, h1, _ => by simp [chars_le] at h1
  | _ :: _, _ :: _, [], _, h2 => by simp [chars_le] at h2
  | x :: xs, y :: ys, z :: zs, h1, h2 => by
    by_cases hxy : x = y
    · subst hxy
      by_cases hyz : x = z
      · subst hyz
        simp only [chars_le, if_pos rfl] at h1 h2 ⊢
        exact chars_le_trans xs ys zs h1 h2
      · simp only [chars_le, if_pos rfl, if_neg hyz] at h1 h2 ⊢
        exact h2
    · simp only [chars_le, if_neg hxy] at h1
      have hxy' : x < y := of_decide_eq_true h1
      by_cases hyz : y = z
      · subst hyz
        simp only [chars_le, if_neg hxy]
        exact decide_eq_true hxy'
      · simp only [chars_le, if_neg hyz] at h2
        have hyz' : y < z := of_decide_eq_true h2
        have hxz' : x < z := lt_trans hxy' hyz'
        simp only [chars_le, if_neg (ne_of_lt hxz')]
        exact decide_eq_true hxz'

instance : IsTotal EnvEntry env_name_le :=
  ⟨fun a b => chars_le_total a.Name.data b.Name.data⟩

instance : IsTrans EnvEntry env_name_le :=
  ⟨fun _ _ _ h1 h2 => chars_le_trans _ _ _ h1 h2⟩

instance : IsTotal SecretEntry secret_name_le :=
  ⟨fun a b => chars_le_total a.Name.data b.Name.data⟩

instance : IsTrans SecretEntry secret_name_le :=
  ⟨fun _ _ _ h1 h2 => chars_le_trans _ _ _ h1 h2⟩

theorem filter_env_of_parts (K non_env : List EnvEntry)
    (hK : ∀ e ∈ K, e.is_environment_type = true)
    (hnon : ∀ e ∈ non_env, e.is_environment_type = false) :
    (K ++ non_env).filter (fun e => e.is_environment_type) = K ∧
    (K ++ non_env).filter (fun e => !e.is_environment_type) = non_env := by
  constructor
  · rw [List.filter_append, List.filter_eq_self.mpr hK, List.filter_eq_nil_iff.mpr, List.append_nil]
    intro e he
    simp [hnon e he]
  · rw [List.filter_append, List.filter_eq_nil_iff.mpr, List.nil_append,
      List.filter_eq_self.mpr]
    · intro e he
      simp [hnon e he]
    · intro e he
      simp [hK e he]

theorem mem_sorted_env_is_env (environment : List EnvEntry) (e : EnvEntry)
    (h : e ∈ (environment.filter (fun x => x.is_environment_type)).insertionSort env_name_le) :
    e.is_environment_type = true := by
  have hm := (List.perm_insertionSort env_name_le
    (environment.filter (fun x => x.is_environment_type))).mem_iff.mp h
  exact List.of_mem_filter hm

theorem sorted_env_sorted (environment : List EnvEntry) :
    List.Sorted env_name_le
      ((environment.filter (fun x => x.is_environment_type)).insertionSort env_name_le) :=
  List.sorted_insertionSort env_name_le _

theorem sev_ne_nil (environment : List EnvEntry) (cs sa : List SecretEntry) (l : List EnvEntry)
    (h : (sort_env_vars_value environment cs sa).1 = some l) : l ≠ [] := by
  unfold sort_env_vars_value at h
  simp only [] at h
  split at h <;> split at h
  · simp at h
  · next hne =>
    rw [Option.some_inj] at h
    intro hnil
    rw [hnil] at h
    rw [h] at hne
    simp at hne
  · simp at h
  · next hne =>
    rw [Option.some_inj] at h
    intro hnil
    rw [hnil] at h
    rw [h] at hne
    simp at hne

theorem sev_parts (environment : List EnvEntry) (cs sa : List SecretEntry) (l : List EnvEntry)
    (h : (sort_env_vars_value environment cs sa).1 = some l) :
    ∃ K, l = K ++ environment.filter (fun e => !e.is_environment_type) ∧
      (∀ e ∈ K, e.is_environment_type = true) ∧
      List.Sorted env_name_le K ∧
      (sa ≠ [] → ∀ e ∈ K, ¬ e.Name ∈ cs.map (fun s => s.Name)) := by
  unfold sort_env_vars_value at h
  simp only [] at h
  split at h
  · split at h
    · simp at h
    · rw [Option.some_inj] at h
      refine ⟨_, h.symm, ?_, ?_, ?_⟩
      · intro e he
        exact mem_sorted_env_is_env environment e (List.mem_of_mem_filter he)
      · exact List.Pairwise.sublist (List.filter_sublist _) (sorted_env_sorted environment)
      · intro _ e he
        have := List.of_mem_filter he
        simpa using this
  · rename_i hdr
    split at h
    · simp at h
    · rw [Option.some_inj] at h
      refine ⟨_, h.symm, ?_, ?_, ?_⟩
      · intro e he
        exact mem_sorted_env_is_env environment e he
      · exact sorted_env_sorted environment
      · intro hsa e he
        exfalso
        apply hdr
        have h1 : sa.isEmpty = false := by
          cases hsa' : sa with
          | nil => exact absurd hsa' hsa
          | cons a rest => rfl
        have h2 : ((environment.filter
            (fun x => x.is_environment_type)).insertionSort env_name_le).isEmpty = false := by
          cases hss : (environment.filter
              (fun x => x.is_environment_type)).insertionSort env_name_le with
          | nil => rw [hss] at he; cases he
          | cons a rest => rfl
        rw [h1, h2]
        rfl

theorem sev_warns (environment : List EnvEntry) (cs sa : List SecretEntry) (e : EnvEntry)
    (he : e ∈ environment) (henv : e.is_environment_type = true)
    (hname : e.Name ∈ cs.map (fun s => s.Name)) (hsa : sa ≠ []) :
    e.Name ∈ (sort_env_vars_value environment cs sa).2 := by
  have hestrict : e ∈ environment.filter (fun x => x.is_environment_type) :=
    List.mem_filter.mpr ⟨he, henv⟩
  have hesorted : e ∈ (environment.filter
      (fun x => x.is_environment_type)).insertionSort env_name_le :=
    (List.perm_insertionSort env_name_le _).mem_iff.mpr hestrict
  have h1 : sa.isEmpty = false := by
    cases hsa' : sa with
    | nil => exact absurd hsa' hsa
    | cons a rest => rfl
  have h2 : ((environment.filter
      (fun x => x.is_environment_type)).insertionSort env_name_le).isEmpty = false := by
    cases hss : (environment.filter
        (fun x => x.is_environment_type)).insertionSort env_name_le with
    | nil => rw [hss] at hesorted; cases hesorted
    | cons a rest => rfl
  unfold sort_env_vars_value
  simp only [h1, h2, Bool.not_false, Bool.and_self, if_true]
  refine List.mem_map.mpr ⟨e, ?_, rfl⟩
  rw [List.mem_reverse]
  refine List.mem_filter.mpr ⟨hesorted, ?_⟩
  simpa using hname

theorem container_spec (c : ContainerDef) :
    (c.Environment.getD [] = [] ∧
        (sort_secrets_env_vars_container c).1.Environment = c.Environment ∧
        (sort_secrets_env_vars_container c).2 = []) ∨
      (c.Environment.getD [] ≠ [] ∧
        (sort_secrets_env_vars_container c).1.Environment
          = (sort_env_vars_value (c.Environment.getD [])
              ((sort_secrets_env_vars_container c).1.Secrets.getD [])
              ((sort_secrets_env_vars_container c).1.Secrets.getD [])).1 ∧
        (sort_secrets_env_vars_container c).2
          = (sort_env_vars_value (c.Environment.getD [])
              ((sort_secrets_env_vars_container c).1.Secrets.getD [])
              ((sort_secrets_env_vars_container c).1.Secrets.getD [])).2) := by
  by_cases hs : (c.Secrets.getD []).isEmpty = true
  · by_cases hp : (c.Environment.getD []).isEmpty = true
    · left
      refine ⟨List.isEmpty_iff.mp hp, ?_, ?_⟩ <;>
        simp [sort_secrets_env_vars_container, hs, hp]
    · right
      refine ⟨fun hnil => hp (by rw [hnil]; rfl), ?_, ?_⟩ <;>
        simp [sort_secrets_env_vars_container, hs, hp]
  · by_cases hp : (c.Environment.getD []).isEmpty = true
    · left
      refine ⟨List.isEmpty_iff.mp hp, ?_, ?_⟩ <;>
        simp [sort_secrets_env_vars_container, hs, hp]
    · right
      refine ⟨fun hnil => hp (by rw [hnil]; rfl), ?_, ?_⟩ <;>
        simp [sort_secrets_env_vars_container, hs, hp]

/- ===================== Claim C6 ===================== -/

/-- C6: after the family's final secrets/environment sort, for every container
whose final `Environment` attribute holds a list: the `Environment`-typed
entries of that list are sorted by name; no `Environment`-typed entry's name
equals the name of an entry of the container's `Secrets` attribute (secrets
take precedence and the colliding variable is dropped, with a warning naming
it, recorded here as the second component); the non-name-keyed special values
(the non-`Environment`-typed entries) are concatenated last; and a sort whose
resulting list is empty stores `NoValue` (absent) rather than an empty list. -/
theorem claim_C6_env_secrets_sorter :
    (∀ (c : ContainerDef) (l : List EnvEntry),
        (sort_secrets_env_vars_container c).1.Environment = some l →
        List.Sorted env_name_le (l.filter (fun e => e.is_environment_type)) ∧
        l = l.filter (fun e => e.is_environment_type)
            ++ l.filter (fun e => !e.is_environment_type) ∧
        (∀ e ∈ l, e.is_environment_type = true →
          ¬ e.Name ∈ ((sort_secrets_env_vars_container c).1.Secrets.getD []).map
              (fun s => s.Name))) ∧
    (∀ (c : ContainerDef) (env0 : List EnvEntry),
        c.Environment = some env0 → ∀ e ∈ env0, e.is_environment_type = true →
        e.Name ∈ ((sort_secrets_env_vars_container c).1.Secrets.getD []).map
            (fun s => s.Name) →
        e.Name ∈ (sort_secrets_env_vars_container c).2) ∧
    (∀ (environment : List EnvEntry) (container_secrets secrets_arg : List SecretEntry)
        (l : List EnvEntry),
        (sort_env_vars_value environment container_secrets secrets_arg).1 = some l →
        l ≠ []) := by
  refine ⟨?_, ?_, sev_ne_nil⟩
  · intro c l hl
    rcases container_spec c with ⟨hemp, henv, _⟩ | ⟨hne, henv, _⟩
    · rw [henv] at hl
      have : l = [] := by
        cases hc : c.Environment with
        | none => rw [hc] at hl; cases hl
        | some l0 =>
          rw [hc] at hl
          rw [Option.some_inj] at hl
          rw [hc] at hemp
          simp only [Option.getD_some] at hemp
          rw [← hl, hemp]
      subst this
      refine ⟨by simp, by simp, by simp⟩
    · rw [henv] at hl
      rcases sev_parts _ _ _ _ hl with ⟨K, rfl, hKenv, hKsorted, hKnames⟩
      have hnon : ∀ e ∈ (c.Environment.getD []).filter (fun e => !e.is_environment_type),
          e.is_environment_type = false := by
        intro e he
        have := List.of_mem_filter he
        simpa using this
      obtain ⟨hfilter1, hfilter2⟩ := filter_env_of_parts K _ hKenv hnon
      refine ⟨?_, ?_, ?_⟩
      · rw [hfilter1]
        exact hKsorted
      · rw [hfilter1, hfilter2]
      · intro e he henv' hmem
        rcases List.mem_append.mp he with heK | henon
        · rcases hcs : (sort_secrets_env_vars_container c).1.Secrets.getD [] with _ | ⟨a, rest⟩
          · rw [hcs] at hmem
            simp at hmem
          · rw [hcs] at hmem
            exact absurd hmem (by
              have := hKnames (by rw [hcs]; intro hco; cases hco) e heK
              rw [hcs] at this
              exact this)
        · rw [hnon e henon] at henv'
          cases henv'
  · intro c env0 henv0 e he henvt hmem
    rcases container_spec c with ⟨hemp, _, _⟩ | ⟨_, _, hwarns⟩
    · rw [henv0] at hemp
      simp only [Option.getD_some] at hemp
      rw [hemp] at he
      cases he
    · rw [hwarns]
      apply sev_warns
      · rw [henv0]
        simpa using he
      · exact henvt
      · exact hmem
      · intro hnil
        rw [hnil] at hmem
        simp at hmem

/-- C6, witness: the claim theorem applied at a concrete container carrying a
secret named DBPASS and environment variables named ZVAR, DBPASS, AVAR plus
one non-`Environment` conditional entry: DBPASS is reported dropped. -/
theorem claim_C6_witness :
    "DBPASS" ∈ (sort_secrets_env_vars_container
        (ContainerDef.mk (some [SecretEntry.mk "DBPASS" true, SecretEntry.mk "AAA" true])
          (some [EnvEntry.mk "ZVAR" "1" true, EnvEntry.mk "DBPASS" "x" true,
            EnvEntry.mk "AVAR" "2" true, EnvEntry.mk "ifcond" "" false]))).2 :=
  claim_C6_env_secrets_sorter.2.1
    (ContainerDef.mk (some [SecretEntry.mk "DBPASS" true, SecretEntry.mk "AAA" true])
      (some [EnvEntry.mk "ZVAR" "1" true, EnvEntry.mk "DBPASS" "x" true,
        EnvEntry.mk "AVAR" "2" true, EnvEntry.mk "ifcond" "" false]))
    [EnvEntry.mk "ZVAR" "1" true, EnvEntry.mk "DBPASS" "x" true,
      EnvEntry.mk "AVAR" "2" true, EnvEntry.mk "ifcond" "" false]
    rfl (EnvEntry.mk "DBPASS" "x" true) (by decide) rfl (by decide)

/- ===================== Listener default action lemmas ===================== -/

theorem rules_loop_ok (listener : ListenerDef) (offset : Nat) :
    ∀ (count : Nat) (svcs : List ListenerTargetDef) (rules : List ListenerRuleDef),
      define_listener_rules_loop listener offset count svcs = .ok rules →
      rules.length = svcs.length ∧
      ∀ i (hi : i < rules.length), (rules.get ⟨i, hi⟩).Priority = count + i + 1 + offset
  | _, [], rules, h => by
    have : rules = [] := by simpa [define_listener_rules_loop] using h.symm
    subst this
    exact ⟨rfl, fun i hi => absurd hi (by simp)⟩
  | count, s :: rest, rules, h => by
    cases ha : define_actions listener s with
    | error e => simp [define_listener_rules_loop, ha, Bind.bind, Except.bind] at h
    | ok acts =>
      cases hc : define_target_conditions s with
      | error e => simp [define_listener_rules_loop, ha, hc, Bind.bind, Except.bind] at h
      | ok conds =>
        cases ht : define_listener_rules_loop listener offset (count + 1) rest with
        | error e =>
          simp [define_listener_rules_loop, ha, hc, ht, Bind.bind, Except.bind] at h
        | ok tail =>
          simp only [define_listener_rules_loop, ha, hc, ht, Bind.bind, Except.bind,
            pure, Except.pure, Except.ok.injEq] at h
          obtain ⟨hlen, hpr⟩ := rules_loop_ok listener offset (count + 1) rest tail ht
          subst h
          refine ⟨by simp [hlen], ?_⟩
          intro i hi
          cases i with
          | zero => simp [List.get]
          | succ j =>
            have hj : j < tail.length := by
              simpa using hi
            have := hpr j hj
            simp only [List.get, List.length_cons] at *
            rw [this]
            omega

/- ===================== Claim C7 ===================== -/

/-- C7: for a listener with no explicitly declared default actions — when
exactly one target is declared carrying no routing condition, no
authentication configuration and a mapped target group, that target becomes
the sole default action (a single forward action) and zero conditional rules
are emitted; and when several targets are declared and one carries access path
"/", that target's actions become the default actions and, when synthesis
succeeds, every remaining target becomes exactly one conditional rule whose
priority is random_offset + ordinal_index + 1, where random_offset is drawn
once per listener. -/
theorem claim_C7_default_actions :
    (∀ (lb_is_nlb : Bool) (listener : ListenerDef) (offset : Nat)
        (only : ListenerTargetDef) (arn : String),
        listener.default_actions = [] →
        listener.services = [only] →
        only.Conditions = [] →
        only.target_arn = some arn →
        only.auth_cognito = false → only.auth_oidc = false →
        define_default_actions lb_is_nlb listener offset
          = .ok ([LBAction.forward arn 1], [])) ∧
    (∀ (listener : ListenerDef) (offset : Nat)
        (default_svc : ListenerTargetDef) (left : List ListenerTargetDef)
        (acts : List LBAction) (rules : List ListenerRuleDef),
        listener.default_actions = [] →
        listener.services.length > 1 →
        pop_first_access_root listener.services = some (default_svc, left) →
        define_default_actions false listener offset = .ok (acts, rules) →
        define_actions listener default_svc = .ok acts ∧
        rules.length = left.length ∧
        ∀ i (hi : i < rules.length), (rules.get ⟨i, hi⟩).Priority = offset + i + 1) := by
  constructor
  · intro lb_is_nlb listener offset only arn hda hsvc hcond harn hac hao
    simp [define_default_actions, define_actions, hda, hsvc, hcond, harn, hac, hao,
      Bind.bind, Except.bind, pure, Except.pure]
  · intro listener offset default_svc left acts rules hda hlen hpop h
    unfold define_default_actions at h
    rw [hda] at h
    cases hsvcs : listener.services with
    | nil =>
      rw [hsvcs] at hlen
      simp at hlen
    | cons x tail =>
      cases tail with
      | nil =>
        rw [hsvcs] at hlen
        simp at hlen
      | cons y rest =>
        rw [hsvcs] at h
        simp only [List.isEmpty_cons, List.isEmpty_nil, Bool.true_and, Bool.and_false,
          Bool.false_and, Bool.not_true, Bool.false_eq_true, if_false] at h
        rw [if_pos (by simp only [decide_eq_true_eq, List.length_cons]; omega)] at h
        unfold handle_non_default_services at h
        rw [hpop] at h
        cases ha : define_actions listener default_svc with
        | error e => simp [ha, Bind.bind, Except.bind] at h
        | ok acts0 =>
          cases hr : define_listener_rules_actions listener left offset with
          | error e => simp [ha, hr, Bind.bind, Except.bind] at h
          | ok rules0 =>
            simp only [ha, hr, Bind.bind, Except.bind, pure, Except.pure,
              Except.ok.injEq, Prod.mk.injEq] at h
            obtain ⟨hacts, hrules⟩ := h
            subst hacts
            subst hrules
            obtain ⟨hl, hp⟩ := rules_loop_ok listener offset 0 left rules0 hr
            refine ⟨rfl, hl, ?_⟩
            intro i hi
            rw [hp i hi]
            omega

/-- C7, witness: Scenario D (one target, no conditions, becomes sole default
forward action with zero rules) and Scenario E (targets with access "/" and
"/api": the "/" target's forward action is the default and the "/api" target
becomes the single conditional rule with priority offset(7) + 0 + 1 = 8). -/
theorem claim_C7_witness :
    (define_default_actions false
        (ListenerDef.mk "LT" "HTTP" none []
          [ListenerTargetDef.mk "fam:svc:80" (some "arnX") [] none false false]) 7
      = .ok ([LBAction.forward "arnX" 1], [])) ∧
    (define_actions
        (ListenerDef.mk "LT" "HTTP" none []
          [ListenerTargetDef.mk "fam:svc:80" (some "arnRoot") [] (some "/") false false,
           ListenerTargetDef.mk "fam:api:81" (some "arnApi") [] (some "/api") false false])
        (ListenerTargetDef.mk "fam:svc:80" (some "arnRoot") [] (some "/") false false)
      = .ok [LBAction.forward "arnRoot" 1]) ∧
    (([ListenerRuleDef.mk "LTfamapi81Rule0" 8 [LBAction.forward "arnApi" 1]
        [LBCondition.path_pattern "/api"]].get ⟨0, by decide⟩).Priority = 7 + 0 + 1) :=
  ⟨claim_C7_default_actions.1 false
      (ListenerDef.mk "LT" "HTTP" none []
        [ListenerTargetDef.mk "fam:svc:80" (some "arnX") [] none false false]) 7
      (ListenerTargetDef.mk "fam:svc:80" (some "arnX") [] none false false) "arnX"
      rfl rfl rfl rfl rfl rfl,
    (claim_C7_default_actions.2
      (ListenerDef.mk "LT" "HTTP" none []
        [ListenerTargetDef.mk "fam:svc:80" (some "arnRoot") [] (some "/") false false,
         ListenerTargetDef.mk "fam:api:81" (some "arnApi") [] (some "/api") false false]) 7
      (ListenerTargetDef.mk "fam:svc:80" (some "arnRoot") [] (some "/") false false)
      [ListenerTargetDef.mk "fam:api:81" (some "arnApi") [] (some "/api") false false]
      [LBAction.forward "arnRoot" 1]
      [ListenerRuleDef.mk "LTfamapi81Rule0" 8 [LBAction.forward "arnApi" 1]
        [LBCondition.path_pattern "/api"]]
      rfl (by decide) rfl (by decide)).1,
    (claim_C7_default_actions.2
      (ListenerDef.mk "LT" "HTTP" none []
        [ListenerTargetDef.mk "fam:svc:80" (some "arnRoot") [] (some "/") false false,
         ListenerTargetDef.mk "fam:api:81" (some "arnApi") [] (some "/api") false false]) 7
      (ListenerTargetDef.mk "fam:svc:80" (some "arnRoot") [] (some "/") false false)
      [ListenerTargetDef.mk "fam:api:81" (some "arnApi") [] (some "/api") false false]
      [LBAction.forward "arnRoot" 1]
      [ListenerRuleDef.mk "LTfamapi81Rule0" 8 [LBAction.forward "arnApi" 1]
        [LBCondition.path_pattern "/api"]]
      rfl (by decide) rfl (by decide)).2.2 0 (by decide)⟩

/- ===================== Claim C8 ===================== -/

/-- C8: the claim (and both the spec §4.2 rule 4 and the function's own
docstring) states that with no family-declared providers the launch mode is
managed-serverless iff the cluster's default strategy includes a serverless
provider or the cluster's provider set is serverless-only — but the code
transcribes the serverless-only test backwards
(`all(provider in cluster.capacity_providers for provider in
["FARGATE", "FARGATE_SPOT"])` tests that both FARGATE providers are members of
the cluster's provider list): a serverless-only cluster declaring only FARGATE
gets CLUSTER_MODE, and a mixed cluster declaring ASG, FARGATE and FARGATE_SPOT
with a non-serverless default strategy gets FARGATE_PROVIDERS. -/
theorem claim_C8_cluster_only_launch_type_code_bug :
    set_launch_type_from_cluster_only (ClusterDef.mk ["FARGATE"] []) = "CLUSTER_MODE" ∧
    spec_cluster_only_serverless (ClusterDef.mk ["FARGATE"] []) = true ∧
    set_launch_type_from_cluster_only
        (ClusterDef.mk ["ASG", "FARGATE", "FARGATE_SPOT"] ["ASG"]) = "FARGATE_PROVIDERS" ∧
    spec_cluster_only_serverless
        (ClusterDef.mk ["ASG", "FARGATE", "FARGATE_SPOT"] ["ASG"]) = false ∧
    set_service_launch_type "FARGATE" [] (ClusterDef.mk ["FARGATE"] [])
        = .ok "CLUSTER_MODE" := by
  refine ⟨by decide, by decide, by decide, by decide, by decide⟩

/- ===================== Claim C9 ===================== -/

/-- C9, counterexample: with cluster providers FARGATE and the family declaring
the single non-serverless provider my-asg, a family provider is not in the
cluster's provider set, yet the raised error is the provider-mixing
`ValueError`, which reports the family's provider names only and does not name
the cluster's available providers. -/
theorem claim_C9_counterexample :
    validate_capacity_providers ["my-asg"] ["FARGATE"]
        = .error (.mixedProviders ["my-asg"]) ∧
    error_names_cluster_providers (.mixedProviders ["my-asg"]) = false := by
  refine ⟨by decide, rfl⟩

/-- C9, amended: when both the family and the cluster declare capacity
providers, every family-declared provider is serverless (FARGATE-family), and
some family-declared provider is not in the cluster's provider set, validation
raises a fatal configuration error that names the family's declared providers
and the cluster's available providers (when some family provider is not even
serverless, the provider-mixing error fires first and names only the family's
providers). -/
theorem claim_C9_provider_not_in_cluster (family_providers cluster_providers : List String)
    (hcl : cluster_providers ≠ [])
    (hfar : ∀ p ∈ family_providers, p ∈ FARGATE_PROVIDERS)
    (hmiss : ∃ p ∈ family_providers, ¬ p ∈ cluster_providers) :
    validate_capacity_providers family_providers cluster_providers
        = .error (.notInCluster family_providers cluster_providers) ∧
    error_names_cluster_providers
        (.notInCluster family_providers cluster_providers) = true := by
  refine ⟨?_, rfl⟩
  have hclE : cluster_providers.isEmpty = false := by
    cases cluster_providers with
    | nil => exact absurd rfl hcl
    | cons a l => rfl
  have hall : family_providers.all (fun cap_name => FARGATE_PROVIDERS.contains cap_name) = true := by
    rw [List.all_eq_true]
    intro p hp
    exact List.elem_iff.mpr (hfar p hp)
  have hnall : family_providers.all (fun provider => cluster_providers.contains provider) = false := by
    rcases hmiss with ⟨p, hpf, hpn⟩
    rw [List.all_eq_false]
    exact ⟨p, hpf, by simpa using fun hco => hpn (List.elem_iff.mp hco)⟩
  unfold validate_capacity_providers
  rw [hclE, hall, hnall]
  simp

/-- C9, witness: Scenario F — cluster FARGATE, family FARGATE and FARGATE_SPOT:
the raised error names both lists, FARGATE_SPOT being the unmatched provider. -/
theorem claim_C9_witness :
    validate_capacity_providers ["FARGATE", "FARGATE_SPOT"] ["FARGATE"]
        = .error (.notInCluster ["FARGATE", "FARGATE_SPOT"] ["FARGATE"]) ∧
    error_names_cluster_providers
        (.notInCluster ["FARGATE", "FARGATE_SPOT"] ["FARGATE"]) = true :=
  claim_C9_provider_not_in_cluster ["FARGATE", "FARGATE_SPOT"] ["FARGATE"]
    (by decide) (by decide) (by decide)

/- ===================== Claim C10 ===================== -/

/-- C10: whenever the cluster declares capacity providers and the family
declares at least one provider that is not serverless (FARGATE-family),
`validate_capacity_providers` raises the fatal `ValueError` stating that
FARGATE capacity providers cannot be mixed with AutoScaling capacity
providers, so the family never reaches the launch-type dispatch through its
own non-serverless provider declarations. -/
theorem claim_C10_mixed_providers_rejected (family_providers cluster_providers : List String)
    (hcl : cluster_providers ≠ [])
    (hmix : ∃ p ∈ family_providers, ¬ p ∈ FARGATE_PROVIDERS) :
    validate_capacity_providers family_providers cluster_providers
        = .error (.mixedProviders family_providers) := by
  have hclE : cluster_providers.isEmpty = false := by
    cases cluster_providers with
    | nil => exact absurd rfl hcl
    | cons a l => rfl
  have hnall : family_providers.all (fun cap_name => FARGATE_PROVIDERS.contains cap_name) = false := by
    rcases hmix with ⟨p, hpf, hpn⟩
    rw [List.all_eq_false]
    exact ⟨p, hpf, by simpa using fun hco => hpn (List.elem_iff.mp hco)⟩
  unfold validate_capacity_providers
  rw [hclE, hnall]
  simp

/-- C10, witness: a family declaring the AutoScaling provider custom-asg
against a cluster declaring FARGATE raises the provider-mixing error. -/
theorem claim_C10_witness :
    validate_capacity_providers ["custom-asg"] ["FARGATE"]
        = .error (.mixedProviders ["custom-asg"]) :=
  claim_C10_mixed_providers_rejected ["custom-asg"] ["FARGATE"] (by decide) (by decide)
